import Mathlib

/-!
Shallow embedding of the PRAXIS registry node ("Lighthouse").

Sources embedded here:
* `cmd/registry/main.go` — registry state, stake verification, the `register`
  (new-registration / heartbeat) and `find` branches of `handleStream`, the
  garbage-collection loop (`gcLoop`), the Redis restore procedure
  (`restoreStateFromRedis`) and the demo text embedding
  (`simpleTextEmbedding`, `buildServiceEmbedding`).
* `storage/redis.go` — `RestoreAllRegistrations` (the stale-record filter).

Modelling conventions:
* `peer.ID` is modelled as `String`; `pid.String()` is the identity.
* Go `map` values are modelled as association lists with distinct keys
  (`mapGet` / `mapSet` / `mapDel` mirror read, assign and `delete`).
* `time.Time` is modelled as `Int` seconds; `now.Sub(t) > 90*time.Second`
  becomes `now - t > 90`.
* `float64` stake amounts are modelled as `ℚ`; `fmt.Sprintf("%.2f", x)` and
  the `%f` (six-decimal) rendering are modelled by `formatFixed`, which uses
  round-half-to-even as Go's `strconv` formatting does.
* External cryptography (SHA-256, the libp2p peerstore and signature check)
  is abstracted into an environment `Env` of pure oracles; the registry code
  only composes their results.
* Fallible external I/O (Redis, Qdrant) has no effect on the in-memory state
  transition, matching the source where errors are only logged; the lock /
  external-call ordering of each handler path is modelled separately as an
  event trace.
-/

/-- Peer identity, `peer.ID` in the source; `String()` is the identity map. -/
abbrev PeerID := String

/-- `peer.AddrInfo`: the peer's identity plus its reachable multiaddresses. -/
structure AddrInfo where
  id : PeerID
  addrs : List String
deriving DecidableEq

/-- `common.ServiceCard` (unnamed/part_000): a provider's self-description. -/
structure ServiceCard where
  name : String
  description : String
  inputs : List String
  costPerOp : ℚ
  version : String
  tags : List String
  embedding : List ℚ
deriving DecidableEq

/-- `common.StakeProof` (unnamed/part_000): a self-signed stake receipt. -/
structure StakeProof where
  txHash : String
  staker : String
  amount : ℚ
  nonce : Int
  timestamp : Int
  chainID : String
  signature : List Nat
deriving DecidableEq

/-- `RegistrationRecord` (main.go:36-41): an active provider session. -/
structure RegistrationRecord where
  lastSeen : Int
  serviceCard : ServiceCard
  stakeProof : Option StakeProof
  addrInfo : AddrInfo
deriving DecidableEq

/-- `common.RegistryRequest` (unnamed/part_000), the `register`/`find` payload;
the `method` tag is modelled by calling `handleRegister` / `handleFind`. -/
structure RegistryRequest where
  card : ServiceCard
  query : String
  stakeProof : Option StakeProof
  providerInfo : Option AddrInfo
deriving DecidableEq

/-- `common.RegistryResponse` (unnamed/part_000). -/
structure RegistryResponse where
  success : Bool
  providers : List AddrInfo
  error : String
deriving DecidableEq

/-- The pure environment abstracting the registry's external collaborators:
the configured minimum stake (main.go:71), the libp2p peerstore public-key
lookup (`r.Host.Peerstore().PubKey`, main.go:305), the SHA-256 digest
(main.go:311), the signature check (`pubKey.Verify`, main.go:312, returning
either an error or a boolean) and `peer.ID.ShortString`. -/
structure Env where
  minStake : ℚ
  pubkeyOf : PeerID → Option Nat
  hash : String → List Nat
  verify : Nat → List Nat → List Nat → Except String Bool
  shortString : PeerID → String

/-- The registry's mutable state (main.go:44-60): the registrations map, the
inverted service index, and the anti-replay set of seen stake keys. -/
structure RegState where
  registrations : List (PeerID × RegistrationRecord)
  serviceIndex : List (String × List PeerID)
  seenStakeNonces : List String
deriving DecidableEq

/-- The state a fresh registry starts from (main.go:115-123). -/
def emptyState : RegState :=
  { registrations := [], serviceIndex := [], seenStakeNonces := [] }

/-- Go map read: first binding of the key, if any. -/
def mapGet {α : Type} (l : List (String × α)) (k : String) : Option α :=
  match l with
  | [] => none
  | (k', v) :: t => if k' = k then some v else mapGet t k

/-- Go map assignment `m[k] = v`: replace the first binding or append. -/
def mapSet {α : Type} (l : List (String × α)) (k : String) (v : α) :
    List (String × α) :=
  match l with
  | [] => [(k, v)]
  | (k', v') :: t => if k' = k then (k, v) :: t else (k', v') :: mapSet t k v

/-- Go `delete(m, k)`: drop the binding of `k`. -/
def mapDel {α : Type} (l : List (String × α)) (k : String) :
    List (String × α) :=
  match l with
  | [] => []
  | (k', v') :: t => if k' = k then t else (k', v') :: mapDel t k

/-- The map keys are pairwise distinct — automatically true of a Go map,
an invariant of the association-list model. -/
def keysNodup {α : Type} (l : List (String × α)) : Prop :=
  (l.map Prod.fst).Nodup

instance {α : Type} (l : List (String × α)) : Decidable (keysNodup l) :=
  List.nodupDecidable _

/-- Go's `strings.ToLower`, modelled per code point. -/
def strToLower (s : String) : String :=
  String.mk (s.data.map Char.toLower)

/-- Reading the inverted index: a missing service name reads as the empty
list, as a missing key of a Go `map[string][]peer.ID` does. -/
def indexLookup (st : RegState) (name : String) : List PeerID :=
  (mapGet st.serviceIndex name).getD []

/-- `addToIndex` (main.go:200-208): append `pid` to the name's list unless
already present. -/
def addToIndex (idx : List (String × List PeerID)) (pid : PeerID)
    (serviceName : String) : List (String × List PeerID) :=
  let list := (mapGet idx serviceName).getD []
  if pid ∈ list then idx
  else mapSet idx serviceName (list ++ [pid])

/-- `removeFromIndex` (main.go:210-219): rewrite the name's list without
`pid` (the key stays, holding the filtered list, as in the source). -/
def removeFromIndex (idx : List (String × List PeerID)) (pid : PeerID)
    (serviceName : String) : List (String × List PeerID) :=
  let list := (mapGet idx serviceName).getD []
  mapSet idx serviceName (list.filter (fun q => q ≠ pid))

/-- Round the fraction `n / d` (with `d ≠ 0`) to the nearest integer, ties
to even — the rounding Go's `strconv`/`fmt` float formatting performs.
Computed on the numerator and denominator so the kernel can evaluate it. -/
def roundFracTiesEven (n : ℤ) (d : ℕ) : ℤ :=
  let f := Int.fdiv n d
  let r := n - f * d
  if 2 * r < (d : ℤ) then f
  else if (d : ℤ) < 2 * r then f + 1
  else if f % 2 = 0 then f else f + 1

/-- Left-pad a digit string with zeros to the requested width. -/
def padZeros (n : Nat) (s : String) : String :=
  String.mk (List.replicate (n - s.length) '0') ++ s

/-- Go's `fmt.Sprintf("%.<prec>f", x)` fixed-notation rendering (for the
positive precisions the registry uses: `%.2f` and the default `%f` = 6).
`q * 10 ^ prec` is the fraction `q.num * 10 ^ prec / q.den`. -/
def formatFixed (prec : Nat) (q : ℚ) : String :=
  let scaled := roundFracTiesEven (q.num * (10 : ℤ) ^ prec) q.den
  let sign := if scaled < 0 then "-" else ""
  let m := scaled.natAbs
  let base := 10 ^ prec
  sign ++ toString (m / base) ++ "." ++ padZeros prec (toString (m % base))

/-- `checkStakeValidity` (main.go:292-320): amount, staker binding and
signature checks in source order; `none` means the proof is acceptable,
`some msg` is the error string sent back to the peer. -/
def checkStakeValidity (env : Env) (remote : PeerID)
    (proof : Option StakeProof) : Option String :=
  match proof with
  | none => some ("stake proof required (min " ++ formatFixed 2 env.minStake ++ ")")
  | some p =>
    if p.amount < env.minStake then
      some ("stake too low: have " ++ formatFixed 2 p.amount ++
            " need " ++ formatFixed 2 env.minStake)
    else if p.staker ≠ "" ∧ p.staker ≠ remote then
      some ("stake staker mismatch (expected " ++ env.shortString remote ++
            " got " ++ p.staker ++ ")")
    else
      match env.pubkeyOf remote with
      | none => some ("missing pubkey for " ++ env.shortString remote)
      | some pk =>
        let payload := p.txHash ++ "|" ++ formatFixed 6 p.amount ++ "|" ++
          toString p.nonce ++ "|" ++ toString p.timestamp ++ "|" ++ p.chainID
        match env.verify pk (env.hash payload) p.signature with
        | Except.error e => some ("stake signature verify failed: " ++ e)
        | Except.ok false => some "stake signature invalid"
        | Except.ok true => none

/-- Outcome tags of stake verification as §4.1 of the specification names
them. -/
inductive StakeOutcome where
  | stakeMissing
  | stakeTooLow
  | stakerMismatch
  | pubkeyMissing
  | signatureInvalid
  | ok
deriving DecidableEq

/-- The ordered verification procedure exactly as the specification words it
(§4.1): first applicable outcome of missing → too low → staker mismatch →
missing pubkey → signature verification against the digest of
`"<tx_hash>|<amount 6dp>|<nonce>|<timestamp>|<chain_id>"`. Stated from the
spec, for comparison against `checkStakeValidity`. -/
def stakeOutcomeSpec (env : Env) (remote : PeerID)
    (proof : Option StakeProof) : StakeOutcome :=
  match proof with
  | none => .stakeMissing
  | some p =>
    if p.amount < env.minStake then .stakeTooLow
    else if p.staker ≠ "" ∧ p.staker ≠ remote then .stakerMismatch
    else
      match env.pubkeyOf remote with
      | none => .pubkeyMissing
      | some pk =>
        let payload := p.txHash ++ "|" ++ formatFixed 6 p.amount ++ "|" ++
          toString p.nonce ++ "|" ++ toString p.timestamp ++ "|" ++ p.chainID
        match env.verify pk (env.hash payload) p.signature with
        | Except.ok true => .ok
        | _ => .signatureInvalid

/-- The heartbeat discriminator of the `register` branch (main.go:341-345):
a request is a heartbeat iff a record exists, both the stored and the
incoming stake proofs are present, and their transaction hashes agree. -/
def isHeartbeat (st : RegState) (remote : PeerID) (req : RegistryRequest) :
    Bool :=
  match mapGet st.registrations remote, req.stakeProof with
  | some existing, some sp =>
    match existing.stakeProof with
    | some esp => esp.txHash = sp.txHash
    | none => false
  | _, _ => false

/-- The anti-replay key `"<tx_hash>|<nonce>"` (main.go:374). -/
def stakeKey (sp : StakeProof) : String :=
  sp.txHash ++ "|" ++ toString sp.nonce

/-- The `register` branch of `handleStream` (main.go:335-432) as a state
transition: heartbeat path (advance `lastSeen`, optionally replace
`addrInfo`), or new-registration path (stake check, replay claim, optional
index move and record install). Redis/Qdrant calls do not touch this state;
their placement relative to the mutex is modelled by `RegEvent` traces. -/
def handleRegister (env : Env) (now : Int) (remote : PeerID)
    (req : RegistryRequest) (st : RegState) : RegState × RegistryResponse :=
  if isHeartbeat st remote req then
    -- main.go:347-364: re-read the record under the mutex and refresh it
    match mapGet st.registrations remote with
    | some entry =>
      let entry' := { entry with
        lastSeen := now
        addrInfo := match req.providerInfo with
          | some pi => pi
          | none => entry.addrInfo }
      ({ st with registrations := mapSet st.registrations remote entry' },
       { success := true, providers := [], error := "" })
    | none => (st, { success := false, providers := [], error := "" })
  else
    -- main.go:365-431: new registration (or stake changed)
    match checkStakeValidity env remote req.stakeProof with
    | some err => (st, { success := false, providers := [], error := err })
    | none =>
      match req.stakeProof with
      | none =>
        -- unreachable: `checkStakeValidity` rejects a missing proof
        (st, { success := false, providers := [], error := "" })
      | some sp =>
        let key := stakeKey sp
        if st.seenStakeNonces.contains key then
          (st, { success := false, providers := [],
                 error := "stake proof already used (replay detected)" })
        else
          let st1 := { st with seenStakeNonces := key :: st.seenStakeNonces }
          -- main.go:391-393: drop the old index entry on a name change
          let st2 :=
            match mapGet st.registrations remote with
            | some existing =>
              if existing.serviceCard.name ≠ req.card.name then
                { st1 with serviceIndex :=
                    (removeFromIndex st1.serviceIndex remote
                      existing.serviceCard.name) }
              else st1
            | none => st1
          match req.providerInfo with
          | some pi =>
            let newRecord : RegistrationRecord :=
              { lastSeen := now
                serviceCard := req.card
                stakeProof := some sp
                addrInfo := pi }
            let st3 := { st2 with
              registrations := mapSet st2.registrations remote newRecord }
            let st4 := { st3 with
              serviceIndex := addToIndex st3.serviceIndex remote req.card.name }
            (st4, { success := true, providers := [], error := "" })
          | none =>
            (st2, { success := true, providers := [], error := "" })

/-- `sub` starts the character list `s`. -/
def hasPrefixChars : List Char → List Char → Bool
  | [], _ => true
  | _ :: _, [] => false
  | p :: ps, c :: cs => p = c && hasPrefixChars ps cs

/-- `strings.Contains(s, sub)` on character lists: some suffix of `s`
starts with `sub` (the empty `sub` always matches). -/
def containsChars : List Char → List Char → Bool
  | sub, [] => sub.isEmpty
  | sub, c :: t => hasPrefixChars sub (c :: t) || containsChars sub t

/-- Whether a service name matches a (already lowercased) query, as the
`find` branch tests it: `strings.Contains(strings.ToLower(name), query)`. -/
def nameMatches (name : String) (loweredQuery : String) : Bool :=
  containsChars loweredQuery.data (strToLower name).data

/-- The `find` branch of `handleStream` (main.go:434-451): lowercase the
query, walk the inverted index, and collect the `addrInfo` of every live
record indexed under a matching name. Always succeeds. -/
def handleFind (st : RegState) (query : String) : RegistryResponse :=
  let q := strToLower query
  let results := st.serviceIndex.foldl
    (fun acc entry =>
      if nameMatches entry.1 q then
        acc ++ entry.2.filterMap
          (fun pid => (mapGet st.registrations pid).map
            (fun reg => reg.addrInfo))
      else acc)
    []
  { success := true, providers := results, error := "" }

/-- The body of the `gcLoop` scan for one visited entry (main.go:182-192):
if the record is stale, delete it from the registrations map and remove
the peer from the inverted index. -/
def gcStep (now : Int) (s : RegState) (pr : PeerID × RegistrationRecord) :
    RegState :=
  if now - pr.2.lastSeen > 90 then
    { s with
      registrations := mapDel s.registrations pr.1
      serviceIndex := (removeFromIndex s.serviceIndex pr.1
        pr.2.serviceCard.name) }
  else s

/-- One tick of `gcLoop` (main.go:177-196): every record not seen for more
than 90 seconds is deleted from the registrations map and removed from the
inverted index (the Redis delete is external, see `gcTickEvents`). -/
def gcTick (now : Int) (st : RegState) : RegState :=
  st.registrations.foldl (gcStep now) st

/-- `RestoreAllRegistrations` (redis.go:128-179): read every stored record
and skip those whose `lastSeen` is more than 90 seconds old. The store is
modelled as the already-decoded `(peer, record)` pairs behind the
`registration:<peer>` keys; decode failures are out of scope. -/
def restoreAllRegistrations (now : Int)
    (store : List (PeerID × RegistrationRecord)) :
    List (PeerID × RegistrationRecord) :=
  store.filter (fun pr => !(now - pr.2.lastSeen > 90))

/-- The body of the restore loop for one restored entry (main.go:273-277):
install the record and add the peer to the inverted index. -/
def restoreStep (st : RegState) (pr : PeerID × RegistrationRecord) :
    RegState :=
  { st with
    registrations := mapSet st.registrations pr.1 pr.2
    serviceIndex := (addToIndex st.serviceIndex pr.1
      pr.2.serviceCard.name) }

/-- `restoreStateFromRedis` (main.go:251-288), run on the fresh startup
state: install every surviving record and rebuild the inverted index. -/
def restoreStateFromRedis (now : Int)
    (store : List (PeerID × RegistrationRecord)) : RegState :=
  (restoreAllRegistrations now store).foldl restoreStep emptyState

/-- `defaultEmbeddingDim` (main.go:610). -/
def defaultEmbeddingDim : Nat := 64

/-- `simpleTextEmbedding` (main.go:624-637): bag-of-code-points vector;
each code point increments the component at `codePoint % dim`. Components
count occurrences, so they are modelled as `Nat` (the source's `float32`
additions of `1.0` are exact at these magnitudes). A non-positive `dim`
falls back to the default, as in the source. The loop body (main.go:629-635)
is `embedStep`. -/
def embedStep (d : Nat) (vec : List Nat) (c : Char) : List Nat :=
  let idx := c.toNat % d
  vec.set idx (vec.getD idx 0 + 1)

def simpleTextEmbedding (text : String) (dim : Nat) : List Nat :=
  let d := if dim = 0 then defaultEmbeddingDim else dim
  text.data.foldl (embedStep d) (List.replicate d 0)

/-- The text a card is embedded from (main.go:614-618): name, description,
and — when tags are present — the space-joined tags, joined by spaces. -/
def cardText (card : ServiceCard) : String :=
  let textParts := [card.name, card.description]
  let textParts :=
    if card.tags.length > 0 then textParts ++ [String.intercalate " " card.tags]
    else textParts
  String.intercalate " " textParts

/-- `buildServiceEmbedding` (main.go:613-620): lowercase the card text and
embed it at the default dimension. -/
def buildServiceEmbedding (card : ServiceCard) : List Nat :=
  simpleTextEmbedding (strToLower (cardText card)) defaultEmbeddingDim

/-- The query-side embedding of `semanticSearchServices` (main.go:663):
`simpleTextEmbedding(strings.ToLower(query), defaultEmbeddingDim)`. -/
def embedQueryVector (query : String) : List Nat :=
  simpleTextEmbedding (strToLower query) defaultEmbeddingDim

/-- Invariant A (spec §3): every registered peer appears exactly once in
the inverted index under its record's current service name. -/
def invariantA (st : RegState) : Bool :=
  st.registrations.all
    (fun pr => (indexLookup st pr.2.serviceCard.name).count pr.1 == 1)

/-- Invariant B (spec §3): every peer listed in the inverted index (under
any entry) has a live record whose service name is that entry's name. -/
def invariantB (st : RegState) : Bool :=
  st.serviceIndex.all
    (fun entry => entry.2.all
      (fun pid =>
        match mapGet st.registrations pid with
        | some rec => rec.serviceCard.name == entry.1
        | none => false))

/-- The providers `find` should return according to the specification
(§4.5): the `addrInfo` of every registered record whose service name,
lowercased, contains the lowercased query as a substring. Stated from the
spec, for comparison against `handleFind`. -/
def specProviders (st : RegState) (query : String) : List AddrInfo :=
  (st.registrations.filter
    (fun pr => nameMatches pr.2.serviceCard.name (strToLower query))).map
    (fun pr => pr.2.addrInfo)

/-- The providers contributed by one inverted-index entry in `find`
(main.go:439-447): when the entry's name matches the lowercased query, the
`addrInfo` of each of its peers that still has a live record. -/
def findEntryProviders (st : RegState) (q : String)
    (entry : String × List PeerID) : List AddrInfo :=
  if nameMatches entry.1 q then
    entry.2.filterMap
      (fun pid => (mapGet st.registrations pid).map (fun reg => reg.addrInfo))
  else []

/-- The peers contributed by one inverted-index entry in `find`. -/
def matchedEntryPids (q : String) (entry : String × List PeerID) :
    List PeerID :=
  if nameMatches entry.1 q then entry.2 else []

/-- All peers listed in the inverted index under a matching name, in
traversal order. -/
def matchedPids (st : RegState) (q : String) : List PeerID :=
  (st.serviceIndex.map (matchedEntryPids q)).flatten

/-- Lock and external-call events of a handler path, in source order. -/
inductive RegEvent where
  | lockState
  | unlockState
  | storeSave
  | storeDelete
  | vectorUpsert
deriving DecidableEq

/-- The lock / external-call skeleton of the heartbeat path: the
discriminator read (main.go:337-339) then the mutex section that updates
the record and calls `storage.SaveRegistration` at main.go:360, before the
unlock at main.go:364. -/
def heartbeatEvents : List RegEvent :=
  [.lockState, .unlockState, .lockState, .storeSave, .unlockState]

/-- The lock / external-call skeleton of the successful new-registration
path: the discriminator read (main.go:337-339), the mutex acquired at
main.go:388, `storage.SaveRegistration` at main.go:407 (only when
`provider_info` is present), the unlock at main.go:415, and the Qdrant
upsert at main.go:428 (only when the vector index is configured). -/
def newRegistrationEvents (hasProviderInfo hasQdrant : Bool) :
    List RegEvent :=
  [.lockState, .unlockState] ++ [.lockState] ++
  (if hasProviderInfo then [.storeSave] else []) ++
  [.unlockState] ++
  (if hasQdrant then [.vectorUpsert] else [])

/-- The lock / external-call skeleton of one `gcLoop` tick that prunes
`staleCount` records: the mutex acquired at main.go:180, one
`storage.DeleteRegistration` per pruned record at main.go:189, the unlock
at main.go:194. -/
def gcTickEvents (staleCount : Nat) : List RegEvent :=
  [.lockState] ++ List.replicate staleCount .storeDelete ++ [.unlockState]

/-- Pair every external-call event with the state-mutex depth at which it
runs (`0` = outside the mutex), given the starting depth. -/
def callDepths : Nat → List RegEvent → List (RegEvent × Nat)
  | _, [] => []
  | d, .lockState :: rest => callDepths (d + 1) rest
  | d, .unlockState :: rest => callDepths (d - 1) rest
  | d, e :: rest => (e, d) :: callDepths d rest

/-- A concrete environment for witnesses: minimum stake 10, a known public
key for every peer, and a signature oracle that accepts. -/
def okEnv : Env :=
  { minStake := 10
    pubkeyOf := fun _ => some 0
    hash := fun _ => []
    verify := fun _ _ _ => Except.ok true
    shortString := fun s => s }

/-- A concrete service card. -/
def demoCard (name : String) : ServiceCard :=
  { name := name, description := "demo", inputs := [], costPerOp := 1,
    version := "1.0", tags := [], embedding := [] }

/-- A concrete stake proof of amount 20 (above `okEnv`'s minimum). -/
def demoProof (tx : String) (nonce : Int) : StakeProof :=
  { txHash := tx, staker := "", amount := 20, nonce := nonce,
    timestamp := 0, chainID := "chain", signature := [] }

/-- A concrete provider address. -/
def demoAddr : AddrInfo := { id := "P", addrs := ["/ip4/1.2.3.4/tcp/4001"] }

/-- Registration of service `"a"` with stake `(t1, 1)` and provider info. -/
def regReqA : RegistryRequest :=
  { card := demoCard "a", query := "",
    stakeProof := some (demoProof "t1" 1), providerInfo := some demoAddr }

/-- A later registration from the same peer: fresh stake `(t2, 2)`, changed
service name `"b"`, and no provider info. -/
def regReqB : RegistryRequest :=
  { card := demoCard "b", query := "",
    stakeProof := some (demoProof "t2" 2), providerInfo := none }

/-- The state after peer `"P"` registers service `"a"` at time 0. -/
def stateOne : RegState := (handleRegister okEnv 0 "P" regReqA emptyState).1

/-- The state after `"P"` then sends `regReqB`: the code removes `"P"` from
the index entry of `"a"` but, absent provider info, leaves the old record
installed. -/
def stateTwo : RegState := (handleRegister okEnv 1 "P" regReqB stateOne).1

/-- Reading a raw inverted index: a missing name reads as the empty list. -/
def lookupIndex (idx : List (String × List PeerID)) (name : String) :
    List PeerID :=
  (mapGet idx name).getD []

/-- The effect of one `gcLoop` step on the registrations map alone. -/
def gcRegFold (now : Int) (m : List (PeerID × RegistrationRecord))
    (pr : PeerID × RegistrationRecord) : List (PeerID × RegistrationRecord) :=
  if now - pr.2.lastSeen > 90 then mapDel m pr.1 else m

/-- The effect of one `gcLoop` step on the inverted index alone. -/
def gcIdxFold (now : Int) (idx : List (String × List PeerID))
    (pr : PeerID × RegistrationRecord) : List (String × List PeerID) :=
  if now - pr.2.lastSeen > 90 then
    removeFromIndex idx pr.1 pr.2.serviceCard.name
  else idx

/-- The effect of one restore step on the registrations map alone. -/
def restRegFold (m : List (PeerID × RegistrationRecord))
    (pr : PeerID × RegistrationRecord) : List (PeerID × RegistrationRecord) :=
  mapSet m pr.1 pr.2

/-- The effect of one restore step on the inverted index alone. -/
def restIdxFold (idx : List (String × List PeerID))
    (pr : PeerID × RegistrationRecord) : List (String × List PeerID) :=
  addToIndex idx pr.1 pr.2.serviceCard.name

/-! ## Association-list (Go map) lemmas -/

theorem mapGet_mapSet_self {α : Type} (l : List (String × α)) (k : String)
    (v : α) : mapGet (mapSet l k v) k = some v := by
  induction l with
  | nil => simp [mapGet, mapSet]
  | cons hd t ih =>
    obtain ⟨k', v'⟩ := hd
    by_cases hk : k' = k <;> simp [mapGet, mapSet, hk, ih]

theorem mapGet_mapSet_ne {α : Type} (l : List (String × α)) (k k' : String)
    (v : α) (h : k' ≠ k) : mapGet (mapSet l k v) k' = mapGet l k' := by
  induction l with
  | nil => simp [mapGet, mapSet, Ne.symm h]
  | cons hd t ih =>
    obtain ⟨k₀, v₀⟩ := hd
    by_cases hk : k₀ = k
    · subst hk
      simp [mapGet, mapSet, Ne.symm h]
    · simp [mapGet, mapSet, hk, ih]

theorem mapGet_eq_none {α : Type} (l : List (String × α)) (k : String)
    (h : k ∉ l.map Prod.fst) : mapGet l k = none := by
  induction l with
  | nil => simp [mapGet]
  | cons hd t ih =>
    obtain ⟨k₀, v₀⟩ := hd
    have hne : k₀ ≠ k := by
      intro hh
      exact h (by simp [hh])
    have ht : k ∉ t.map Prod.fst := by
      intro hh
      exact h (by simp [hh])
    simp [mapGet, hne, ih ht]

theorem mapGet_mapDel_self {α : Type} (l : List (String × α)) (k : String)
    (hnd : keysNodup l) : mapGet (mapDel l k) k = none := by
  induction l with
  | nil => simp [mapGet, mapDel]
  | cons hd t ih =>
    obtain ⟨k₀, v₀⟩ := hd
    have hmem : k₀ ∉ t.map Prod.fst := (List.nodup_cons.mp hnd).1
    have hnd' : keysNodup t := (List.nodup_cons.mp hnd).2
    by_cases hk : k₀ = k
    · subst hk
      simpa [mapDel] using mapGet_eq_none t k₀ hmem
    · simp [mapGet, mapDel, hk, ih hnd']

theorem mapGet_mapDel_ne {α : Type} (l : List (String × α)) (k k' : String)
    (h : k' ≠ k) : mapGet (mapDel l k) k' = mapGet l k' := by
  induction l with
  | nil => simp [mapDel]
  | cons hd t ih =>
    obtain ⟨k₀, v₀⟩ := hd
    by_cases hk : k₀ = k
    · subst hk
      simp [mapGet, mapDel, Ne.symm h]
    · simp [mapGet, mapDel, hk, ih]

theorem mapGet_mapDel_none {α : Type} (l : List (String × α)) (k k' : String)
    (h : mapGet l k' = none) : mapGet (mapDel l k) k' = none := by
  induction l with
  | nil => simpa [mapDel] using h
  | cons hd t ih =>
    obtain ⟨k₀, v₀⟩ := hd
    by_cases hk₀ : k₀ = k'
    · subst hk₀
      simp [mapGet] at h
    · by_cases hk : k₀ = k
      · subst hk
        simpa [mapGet, mapDel, hk₀] using h
      · simp only [mapGet, if_neg hk₀] at h
        simp [mapGet, mapDel, hk, hk₀, ih h]

theorem keysNodup_mapSet {α : Type} (l : List (String × α)) (k : String)
    (v : α) (hnd : keysNodup l) : keysNodup (mapSet l k v) := by
  induction l with
  | nil => simp [mapSet, keysNodup]
  | cons hd t ih =>
    obtain ⟨k₀, v₀⟩ := hd
    have hmem : k₀ ∉ t.map Prod.fst := (List.nodup_cons.mp hnd).1
    have hnd' : keysNodup t := (List.nodup_cons.mp hnd).2
    by_cases hk : k₀ = k
    · subst hk
      simpa [mapSet, keysNodup] using hnd
    · have hkeys : ∀ {m : List (String × α)},
          (mapSet m k v).map Prod.fst = if k ∈ m.map Prod.fst
            then m.map Prod.fst else m.map Prod.fst ++ [k] := by
        intro m
        induction m with
        | nil => simp [mapSet]
        | cons hd₂ t₂ ih₂ =>
          obtain ⟨k₂, v₂⟩ := hd₂
          by_cases hk₂ : k₂ = k
          · simp [mapSet, hk₂]
          · simp only [mapSet, if_neg hk₂, List.map_cons, ih₂]
            by_cases hmem₂ : k ∈ t₂.map Prod.fst <;>
              simp [hmem₂, Ne.symm hk₂]
      simp only [keysNodup, mapSet, if_neg hk, List.map_cons]
      refine List.nodup_cons.mpr ⟨?_, ih hnd'⟩
      rw [hkeys]
      by_cases hmem₂ : k ∈ t.map Prod.fst
      · simpa [hmem₂] using hmem
      · simp [hmem₂, hmem, hk]

theorem keysNodup_mapDel {α : Type} (l : List (String × α)) (k : String)
    (hnd : keysNodup l) : keysNodup (mapDel l k) := by
  induction l with
  | nil => simp [mapDel, keysNodup]
  | cons hd t ih =>
    obtain ⟨k₀, v₀⟩ := hd
    have hmem : k₀ ∉ t.map Prod.fst := (List.nodup_cons.mp hnd).1
    have hnd' : keysNodup t := (List.nodup_cons.mp hnd).2
    by_cases hk : k₀ = k
    · simpa [mapDel, hk] using hnd'
    · have hsub : ∀ {m : List (String × α)} {x : String},
          x ∈ (mapDel m k).map Prod.fst → x ∈ m.map Prod.fst := by
        intro m x
        induction m with
        | nil => simp [mapDel]
        | cons hd₂ t₂ ih₂ =>
          obtain ⟨k₂, v₂⟩ := hd₂
          by_cases hk₂ : k₂ = k
          · intro hx
            simp only [mapDel, if_pos hk₂] at hx
            simp [hx]
          · intro hx
            simp only [mapDel, if_neg hk₂, List.map_cons,
              List.mem_cons] at hx
            rcases hx with hx | hx
            · simp [hx]
            · simp [ih₂ hx]
      simp only [keysNodup, mapDel, if_neg hk, List.map_cons]
      refine List.nodup_cons.mpr ⟨fun hx => hmem (hsub hx), ih hnd'⟩

/-! ## C3: stake verification follows the ordered procedure -/

/-- Helper: concrete `%.2f` renderings used by scenario S3. -/
theorem formatFixed_five : formatFixed 2 (5 : ℚ) = "5.00" := by decide

theorem formatFixed_ten : formatFixed 2 (10 : ℚ) = "10.00" := by decide

/-- C3: for every stake proof, peer identity and minimum stake, stake
verification fails with exactly the first applicable outcome of the
ordered procedure (missing → too low → staker mismatch → missing pubkey →
signature verification over the canonical payload), succeeds exactly when
the spec-side procedure answers OK, and the too-low message renders both
amounts with two decimals, so `amount = 5`, `min = 10` yields exactly
`"stake too low: have 5.00 need 10.00"`. -/
theorem C3_stake_check_first_applicable (env : Env) (remote : PeerID)
    (proof : Option StakeProof) :
    (checkStakeValidity env remote proof = none ↔
      stakeOutcomeSpec env remote proof = .ok)
    ∧ (stakeOutcomeSpec env remote proof = .stakeMissing →
        checkStakeValidity env remote proof =
          some ("stake proof required (min " ++
            formatFixed 2 env.minStake ++ ")"))
    ∧ (∀ p, proof = some p →
        stakeOutcomeSpec env remote proof = .stakeTooLow →
        checkStakeValidity env remote proof =
          some ("stake too low: have " ++ formatFixed 2 p.amount ++
                " need " ++ formatFixed 2 env.minStake))
    ∧ (∀ p, proof = some p →
        stakeOutcomeSpec env remote proof = .stakerMismatch →
        checkStakeValidity env remote proof =
          some ("stake staker mismatch (expected " ++
            env.shortString remote ++ " got " ++ p.staker ++ ")"))
    ∧ (stakeOutcomeSpec env remote proof = .pubkeyMissing →
        checkStakeValidity env remote proof =
          some ("missing pubkey for " ++ env.shortString remote))
    ∧ (stakeOutcomeSpec env remote proof = .signatureInvalid →
        checkStakeValidity env remote proof =
          some "stake signature invalid" ∨
        ∃ e, checkStakeValidity env remote proof =
          some ("stake signature verify failed: " ++ e))
    ∧ (∀ p, proof = some p → p.amount = 5 → env.minStake = 10 →
        checkStakeValidity env remote proof =
          some "stake too low: have 5.00 need 10.00") := by
  cases proof with
  | none =>
    refine ⟨?_, ?_, ?_, ?_, ?_, ?_, ?_⟩ <;>
      simp [checkStakeValidity, stakeOutcomeSpec]
  | some p =>
    by_cases hlow : p.amount < env.minStake
    · have hc : checkStakeValidity env remote (some p) =
          some ("stake too low: have " ++ formatFixed 2 p.amount ++
                " need " ++ formatFixed 2 env.minStake) := by
        simp [checkStakeValidity, hlow]
      have hs : stakeOutcomeSpec env remote (some p) = .stakeTooLow := by
        simp [stakeOutcomeSpec, hlow]
      refine ⟨by simp [hc, hs], by simp [hs], ?_, by simp [hs],
        by simp [hs], by simp [hs], ?_⟩
      · intro q hq _
        cases hq
        exact hc
      · intro q hq h5 h10
        cases hq
        rw [h5, h10] at hc
        rw [hc, formatFixed_five, formatFixed_ten]
        decide
    · by_cases hstaker : p.staker ≠ "" ∧ p.staker ≠ remote
      · have hc : checkStakeValidity env remote (some p) =
            some ("stake staker mismatch (expected " ++
              env.shortString remote ++ " got " ++ p.staker ++ ")") := by
          simp [checkStakeValidity, hlow, hstaker]
        have hs : stakeOutcomeSpec env remote (some p) = .stakerMismatch := by
          simp [stakeOutcomeSpec, hlow, hstaker]
        refine ⟨by simp [hc, hs], by simp [hs], by simp [hs], ?_,
          by simp [hs], by simp [hs], ?_⟩
        · intro q hq _
          cases hq
          exact hc
        · intro q hq h5 h10
          cases hq
          rw [h5, h10] at hlow
          exact absurd (by norm_num) hlow
      · cases hpk : env.pubkeyOf remote with
        | none =>
          have hc : checkStakeValidity env remote (some p) =
              some ("missing pubkey for " ++ env.shortString remote) := by
            simp [checkStakeValidity, hlow, hstaker, hpk]
          have hs : stakeOutcomeSpec env remote (some p) = .pubkeyMissing := by
            simp [stakeOutcomeSpec, hlow, hstaker, hpk]
          refine ⟨by simp [hc, hs], by simp [hs], by simp [hs],
            by simp [hs], fun _ => hc, by simp [hs], ?_⟩
          intro q hq h5 h10
          cases hq
          rw [h5, h10] at hlow
          exact absurd (by norm_num) hlow
        | some pk =>
          cases hv : env.verify pk
              (env.hash (p.txHash ++ "|" ++ formatFixed 6 p.amount ++ "|" ++
                toString p.nonce ++ "|" ++ toString p.timestamp ++ "|" ++
                p.chainID)) p.signature with
          | error e =>
            have hc : checkStakeValidity env remote (some p) =
                some ("stake signature verify failed: " ++ e) := by
              simp [checkStakeValidity, hlow, hstaker, hpk, hv]
            have hs : stakeOutcomeSpec env remote (some p) =
                .signatureInvalid := by
              simp [stakeOutcomeSpec, hlow, hstaker, hpk, hv]
            refine ⟨by simp [hc, hs], by simp [hs], by simp [hs],
              by simp [hs], by simp [hs], fun _ => Or.inr ⟨e, hc⟩, ?_⟩
            intro q hq h5 h10
            cases hq
            rw [h5, h10] at hlow
            exact absurd (by norm_num) hlow
          | ok b =>
            cases b with
            | false =>
              have hc : checkStakeValidity env remote (some p) =
                  some "stake signature invalid" := by
                simp [checkStakeValidity, hlow, hstaker, hpk, hv]
              have hs : stakeOutcomeSpec env remote (some p) =
                  .signatureInvalid := by
                simp [stakeOutcomeSpec, hlow, hstaker, hpk, hv]
              refine ⟨by simp [hc, hs], by simp [hs], by simp [hs],
                by simp [hs], by simp [hs], fun _ => Or.inl hc, ?_⟩
              intro q hq h5 h10
              cases hq
              rw [h5, h10] at hlow
              exact absurd (by norm_num) hlow
            | true =>
              have hc : checkStakeValidity env remote (some p) = none := by
                simp [checkStakeValidity, hlow, hstaker, hpk, hv]
              have hs : stakeOutcomeSpec env remote (some p) = .ok := by
                simp [stakeOutcomeSpec, hlow, hstaker, hpk, hv]
              refine ⟨by simp [hc, hs], by simp [hs], by simp [hs],
                by simp [hs], by simp [hs], by simp [hs], ?_⟩
              intro q hq h5 h10
              cases hq
              rw [h5, h10] at hlow
              exact absurd (by norm_num) hlow

/-- Witness for C3 at a concrete input: the S3 scenario (`amount = 5`,
`min_stake = 10`) produces exactly the specified message. -/
theorem C3_stake_check_witness :
    checkStakeValidity okEnv "peerA"
      (some { demoProof "tx" 1 with amount := 5 }) =
      some "stake too low: have 5.00 need 10.00" :=
  (C3_stake_check_first_applicable okEnv "peerA"
      (some { demoProof "tx" 1 with amount := 5 })).2.2.2.2.2.2
    { demoProof "tx" 1 with amount := 5 } rfl rfl rfl

/-! ## C4: a matching-tx register is a heartbeat and only refreshes -/

/-- C4: when a record exists and the incoming stake proof shares the stored
proof's transaction hash, `register` is processed as a heartbeat: the
response is success, the stored record's `lastSeen` becomes `now`, its
`addrInfo` is replaced exactly when the request supplies `providerInfo`,
and everything else — the record's service card and stake proof, every
other registration, the inverted index and the replay set — is unchanged,
even when the heartbeat request carries a different card. -/
theorem C4_heartbeat_refreshes_only (env : Env) (now : Int) (remote : PeerID)
    (req : RegistryRequest) (st : RegState) (rec : RegistrationRecord)
    (esp sp : StakeProof)
    (hrec : mapGet st.registrations remote = some rec)
    (hesp : rec.stakeProof = some esp)
    (hsp : req.stakeProof = some sp)
    (htx : esp.txHash = sp.txHash) :
    (handleRegister env now remote req st).2 =
      { success := true, providers := [], error := "" }
    ∧ mapGet (handleRegister env now remote req st).1.registrations remote =
        some { rec with
          lastSeen := now
          addrInfo := match req.providerInfo with
            | some pi => pi
            | none => rec.addrInfo }
    ∧ (∀ other, other ≠ remote →
        mapGet (handleRegister env now remote req st).1.registrations other =
          mapGet st.registrations other)
    ∧ (handleRegister env now remote req st).1.serviceIndex = st.serviceIndex
    ∧ (handleRegister env now remote req st).1.seenStakeNonces =
        st.seenStakeNonces := by
  have hb : isHeartbeat st remote req = true := by
    simp [isHeartbeat, hrec, hsp, hesp, htx]
  have hres : handleRegister env now remote req st =
      ({ st with registrations := (mapSet st.registrations remote
          { rec with
            lastSeen := now
            addrInfo := match req.providerInfo with
              | some pi => pi
              | none => rec.addrInfo }) },
       { success := true, providers := [], error := "" }) := by
    simp only [handleRegister, hb, if_true, hrec]
  rw [hres]
  exact ⟨rfl, mapGet_mapSet_self st.registrations remote _,
    fun other hother => mapGet_mapSet_ne st.registrations remote other _ hother,
    rfl, rfl⟩

/-- Witness for C4: a heartbeat from `"P"` at time 5 in `stateOne`
succeeds, leaves the card and stake proof as registered, and only advances
`lastSeen` (the request carries provider info, so `addrInfo` is replaced
by it). -/
theorem C4_heartbeat_refreshes_only_witness :
    (handleRegister okEnv 5 "P" regReqA stateOne).2 =
      { success := true, providers := [], error := "" }
    ∧ mapGet (handleRegister okEnv 5 "P" regReqA stateOne).1.registrations
        "P" = some ⟨5, demoCard "a", some (demoProof "t1" 1), demoAddr⟩ := by
  have h := C4_heartbeat_refreshes_only okEnv 5 "P" regReqA stateOne
    ⟨0, demoCard "a", some (demoProof "t1" 1), demoAddr⟩
    (demoProof "t1" 1) (demoProof "t1" 1) (by decide) rfl rfl rfl
  exact ⟨h.1, h.2.1⟩

/-! ## C2: the replay guard -/

/-- The replay set only grows: no branch of the `register` handler removes
a key from `seenStakeNonces`. -/
theorem handleRegister_seen_mono (env : Env) (now : Int) (remote : PeerID)
    (req : RegistryRequest) (st : RegState) (k : String)
    (hk : k ∈ st.seenStakeNonces) :
    k ∈ (handleRegister env now remote req st).1.seenStakeNonces := by
  simp only [handleRegister]
  repeat' split
  all_goals simp [hk]

/-- One GC pass never touches the replay set. -/
theorem gcStep_seen (now : Int) (s : RegState)
    (pr : PeerID × RegistrationRecord) :
    (gcStep now s pr).seenStakeNonces = s.seenStakeNonces := by
  unfold gcStep
  split <;> rfl

/-- The eviction loop never touches the replay set. -/
theorem gcTick_seen (now : Int) (st : RegState) :
    (gcTick now st).seenStakeNonces = st.seenStakeNonces := by
  unfold gcTick
  generalize st.registrations = l
  induction l generalizing st with
  | nil => rfl
  | cons h t ih => rw [List.foldl_cons, ih, gcStep_seen]

/-- C2: a register carrying a valid stake proof succeeds exactly once per
`(tx_hash, nonce)` pair in a process lifetime. A first new-registration
attempt records the key `"<tx_hash>|<nonce>"` and succeeds; any later
register attempt that again takes the new-registration path with the same
pair is refused with the replay error and changes nothing; heartbeats
bypass the check and never touch the replay set; and the replay set only
grows (also across GC ticks). -/
theorem C2_stake_replay_once (env : Env) (now : Int) (remote : PeerID)
    (req : RegistryRequest) (st : RegState) (sp : StakeProof)
    (hsp : req.stakeProof = some sp)
    (hvalid : checkStakeValidity env remote req.stakeProof = none) :
    (isHeartbeat st remote req = false →
      stakeKey sp ∉ st.seenStakeNonces →
      (handleRegister env now remote req st).2.success = true
      ∧ (handleRegister env now remote req st).2.error = ""
      ∧ (handleRegister env now remote req st).1.seenStakeNonces =
          stakeKey sp :: st.seenStakeNonces)
    ∧ (isHeartbeat st remote req = false →
      stakeKey sp ∈ st.seenStakeNonces →
      handleRegister env now remote req st =
        (st, { success := false, providers := [],
               error := "stake proof already used (replay detected)" }))
    ∧ (isHeartbeat st remote req = true →
      (handleRegister env now remote req st).2.success = true
      ∧ (handleRegister env now remote req st).1.seenStakeNonces =
          st.seenStakeNonces)
    ∧ (∀ k, k ∈ st.seenStakeNonces →
        k ∈ (handleRegister env now remote req st).1.seenStakeNonces)
    ∧ (∀ t, (gcTick t st).seenStakeNonces = st.seenStakeNonces) := by
  refine ⟨?_, ?_, ?_, ?_, fun t => gcTick_seen t st⟩
  · intro hb hk
    have hc : st.seenStakeNonces.contains (stakeKey sp) = false := by
      simpa using hk
    simp only [handleRegister, hb, hvalid, hsp, hc]
    repeat' split
    all_goals simp_all
  · intro hb hk
    have hvalid' : checkStakeValidity env remote (some sp) = none := by
      rwa [hsp] at hvalid
    simp [handleRegister, hb, hvalid', hsp, hk]
  · intro hb
    cases hget : mapGet st.registrations remote with
    | none =>
      exfalso
      simp [isHeartbeat, hget] at hb
    | some entry =>
      constructor <;> simp [handleRegister, hb, hget]
  · intro k hk
    exact handleRegister_seen_mono env now remote req st k hk

/-- Witness for C2: the first registration of `regReqA` (key `"t1|1"`)
from the fresh state succeeds and claims the key; replaying the same proof
from the (still matching-path) peer `"Q"` afterwards is refused. -/
theorem C2_stake_replay_once_witness :
    (handleRegister okEnv 0 "P" regReqA emptyState).2.success = true
    ∧ (handleRegister okEnv 0 "P" regReqA emptyState).1.seenStakeNonces =
        ["t1|1"]
    ∧ handleRegister okEnv 1 "Q" regReqA stateOne =
        (stateOne, { success := false, providers := [],
                     error := "stake proof already used (replay detected)" })
    := by
  have h1 := (C2_stake_replay_once okEnv 0 "P" regReqA emptyState
    (demoProof "t1" 1) rfl (by decide)).1 (by decide) (by decide)
  have h2 := ((C2_stake_replay_once okEnv 1 "Q" regReqA stateOne
    (demoProof "t1" 1) rfl (by decide)).2.1) (by decide) (by decide)
  refine ⟨h1.1, ?_, h2⟩
  rw [h1.2.2]
  decide

/-! ## C9: a proof is consumed even when no record is installed -/

/-- C9: a new registration that passes stake validation and the replay
check but carries no `provider_info` replies success yet installs nothing —
while the `(tx_hash, nonce)` key is already claimed. A later register from
the same still-unregistered peer reusing the same proof, now with
`provider_info`, is refused as a replay: the proof was consumed without
any registration ever existing. -/
theorem C9_proof_consumed_without_record (env : Env) (t1 t2 : Int)
    (remote : PeerID) (st : RegState) (sp : StakeProof)
    (req1 req2 : RegistryRequest) (pi : AddrInfo)
    (hunreg : mapGet st.registrations remote = none)
    (hvalid : checkStakeValidity env remote (some sp) = none)
    (hfresh : stakeKey sp ∉ st.seenStakeNonces)
    (h1sp : req1.stakeProof = some sp) (h1pi : req1.providerInfo = none)
    (h2sp : req2.stakeProof = some sp)
    (_h2pi : req2.providerInfo = some pi) :
    (handleRegister env t1 remote req1 st).2.success = true
    ∧ (handleRegister env t1 remote req1 st).1.registrations =
        st.registrations
    ∧ (handleRegister env t1 remote req1 st).1.serviceIndex = st.serviceIndex
    ∧ stakeKey sp ∈ (handleRegister env t1 remote req1 st).1.seenStakeNonces
    ∧ handleRegister env t2 remote req2
        (handleRegister env t1 remote req1 st).1 =
        ((handleRegister env t1 remote req1 st).1,
         { success := false, providers := [],
           error := "stake proof already used (replay detected)" }) := by
  have hb1 : isHeartbeat st remote req1 = false := by
    simp [isHeartbeat, hunreg]
  have hres1 : handleRegister env t1 remote req1 st =
      ({ st with seenStakeNonces := stakeKey sp :: st.seenStakeNonces },
       { success := true, providers := [], error := "" }) := by
    simp [handleRegister, hb1, h1sp, hvalid, hunreg, h1pi, hfresh]
  have hb2 : isHeartbeat
      { st with seenStakeNonces := stakeKey sp :: st.seenStakeNonces }
      remote req2 = false := by
    simp [isHeartbeat, hunreg]
  have hres2 : handleRegister env t2 remote req2
      { st with seenStakeNonces := stakeKey sp :: st.seenStakeNonces } =
      ({ st with seenStakeNonces := stakeKey sp :: st.seenStakeNonces },
       { success := false, providers := [],
         error := "stake proof already used (replay detected)" }) := by
    simp [handleRegister, hb2, h2sp, hvalid]
  rw [hres1]
  exact ⟨rfl, rfl, rfl, by simp, by rw [hres2]⟩

/-- Witness for C9: peer `"Q"`, proof `(t9, 9)` against the fresh state —
the first (provider-less) register succeeds, the retry with provider info
is refused. -/
theorem C9_proof_consumed_without_record_witness :
    (handleRegister okEnv 0 "Q"
        ⟨demoCard "c", "", some (demoProof "t9" 9), none⟩ emptyState).2.success
      = true
    ∧ (handleRegister okEnv 0 "Q"
        ⟨demoCard "c", "", some (demoProof "t9" 9), none⟩
        emptyState).1.registrations = []
    ∧ handleRegister okEnv 1 "Q"
        ⟨demoCard "c", "", some (demoProof "t9" 9), some demoAddr⟩
        (handleRegister okEnv 0 "Q"
          ⟨demoCard "c", "", some (demoProof "t9" 9), none⟩ emptyState).1 =
        ((handleRegister okEnv 0 "Q"
          ⟨demoCard "c", "", some (demoProof "t9" 9), none⟩ emptyState).1,
         { success := false, providers := [],
           error := "stake proof already used (replay detected)" }) := by
  have h := C9_proof_consumed_without_record okEnv 0 1 "Q" emptyState
    (demoProof "t9" 9)
    ⟨demoCard "c", "", some (demoProof "t9" 9), none⟩
    ⟨demoCard "c", "", some (demoProof "t9" 9), some demoAddr⟩
    demoAddr rfl (by decide) (by decide) rfl rfl rfl rfl
  exact ⟨h.1, h.2.1, h.2.2.2.2⟩

/-! ## C5: the eviction tick -/

/-- The GC fold's effect on the registrations map is `gcRegFold`. -/
theorem foldl_gcStep_registrations (now : Int)
    (l : List (PeerID × RegistrationRecord)) :
    ∀ s : RegState, (l.foldl (gcStep now) s).registrations =
      l.foldl (gcRegFold now) s.registrations := by
  induction l with
  | nil => intro s; rfl
  | cons h t ih =>
    intro s
    rw [List.foldl_cons, List.foldl_cons, ih]
    congr 1
    unfold gcStep gcRegFold
    split <;> rfl

/-- The GC fold's effect on the inverted index is `gcIdxFold`. -/
theorem foldl_gcStep_serviceIndex (now : Int)
    (l : List (PeerID × RegistrationRecord)) :
    ∀ s : RegState, (l.foldl (gcStep now) s).serviceIndex =
      l.foldl (gcIdxFold now) s.serviceIndex := by
  induction l with
  | nil => intro s; rfl
  | cons h t ih =>
    intro s
    rw [List.foldl_cons, List.foldl_cons, ih]
    congr 1
    unfold gcStep gcIdxFold
    split <;> rfl

/-- Removing one peer from the index does not affect another's membership. -/
theorem mem_lookupIndex_removeFromIndex_ne
    (idx : List (String × List PeerID)) (q pid : PeerID)
    (name' name : String) (hq : q ≠ pid) :
    (pid ∈ lookupIndex (removeFromIndex idx q name') name ↔
      pid ∈ lookupIndex idx name) := by
  unfold removeFromIndex lookupIndex
  by_cases hn : name' = name
  · subst hn
    rw [mapGet_mapSet_self]
    simp [List.mem_filter, Ne.symm hq]
  · rw [mapGet_mapSet_ne idx name' name _ (fun hh => hn hh.symm)]

/-- Removing a peer from the index removes it from that name's list. -/
theorem not_mem_lookupIndex_removeFromIndex_self
    (idx : List (String × List PeerID)) (pid : PeerID) (name : String) :
    pid ∉ lookupIndex (removeFromIndex idx pid name) name := by
  unfold removeFromIndex lookupIndex
  rw [mapGet_mapSet_self]
  simp

/-- A GC pass whose stale entries all belong to other peers does not change
`pid`'s index membership (under any name). -/
theorem gcIdxFold_mem_iff (now : Int) (pid : PeerID) (name : String) :
    ∀ (l : List (PeerID × RegistrationRecord))
      (idx : List (String × List PeerID)),
      (∀ pr ∈ l, pr.1 = pid → ¬(now - pr.2.lastSeen > 90)) →
      (pid ∈ lookupIndex (l.foldl (gcIdxFold now) idx) name ↔
        pid ∈ lookupIndex idx name) := by
  intro l
  induction l with
  | nil => intro idx _; exact Iff.rfl
  | cons pr t ih =>
    intro idx hl
    rw [List.foldl_cons]
    have ht : ∀ pr' ∈ t, pr'.1 = pid → ¬(now - pr'.2.lastSeen > 90) :=
      fun pr' h => hl pr' (List.mem_cons_of_mem pr h)
    rw [ih _ ht]
    by_cases hstale : now - pr.2.lastSeen > 90
    · have hq : pr.1 ≠ pid := fun hh => (hl pr (List.mem_cons_self pr t) hh) hstale
      unfold gcIdxFold
      rw [if_pos hstale]
      exact mem_lookupIndex_removeFromIndex_ne idx pr.1 pid
        pr.2.serviceCard.name name hq
    · unfold gcIdxFold
      rw [if_neg hstale]

/-- With pairwise-distinct keys, the record a key maps to is unique. -/
theorem mapGet_unique {α : Type} (l : List (String × α)) (k : String)
    (v rec : α) (hnd : keysNodup l) (hget : mapGet l k = some rec)
    (hmem : (k, v) ∈ l) : v = rec := by
  induction l with
  | nil => cases hmem
  | cons hd t ih =>
    obtain ⟨k₀, v₀⟩ := hd
    have hkey : k₀ ∉ t.map Prod.fst := (List.nodup_cons.mp hnd).1
    have hnd' : keysNodup t := (List.nodup_cons.mp hnd).2
    rcases List.mem_cons.mp hmem with hmem | hmem
    · cases hmem
      simp only [mapGet, if_pos rfl] at hget
      exact Option.some.inj hget
    · by_cases hk : k₀ = k
      · subst hk
        exfalso
        exact hkey (by
          refine List.mem_map.mpr ⟨(k₀, v), hmem, rfl⟩)
      · simp only [mapGet, if_neg hk] at hget
        exact ih hnd' hget hmem

/-- A stale peer is removed from the index entry of its record's name by
the GC pass over a key-distinct registration list containing it. -/
theorem gcIdxFold_not_mem_of_stale (now : Int) (pid : PeerID)
    (rec : RegistrationRecord) :
    ∀ (l : List (PeerID × RegistrationRecord))
      (idx : List (String × List PeerID)),
      keysNodup l → mapGet l pid = some rec → now - rec.lastSeen > 90 →
      pid ∉ lookupIndex (l.foldl (gcIdxFold now) idx)
        rec.serviceCard.name := by
  intro l
  induction l with
  | nil =>
    intro idx _ hget
    simp [mapGet] at hget
  | cons pr t ih =>
    intro idx hnd hget hstale
    have hkey : pr.1 ∉ t.map Prod.fst := (List.nodup_cons.mp hnd).1
    have hnd' : keysNodup t := (List.nodup_cons.mp hnd).2
    rw [List.foldl_cons]
    by_cases hk : pr.1 = pid
    · have hrec : pr.2 = rec := by
        obtain ⟨p1, p2⟩ := pr
        simp only at hk
        subst hk
        simpa [mapGet] using hget
      have hstep : gcIdxFold now idx pr =
          removeFromIndex idx pid rec.serviceCard.name := by
        unfold gcIdxFold
        rw [if_pos (hrec ▸ hstale), hk, hrec]
      rw [hstep]
      have hvac : ∀ pr' ∈ t, pr'.1 = pid → ¬(now - pr'.2.lastSeen > 90) := by
        intro pr' hpr' hpid
        exfalso
        exact hkey (hk ▸ hpid ▸ List.mem_map.mpr ⟨pr', hpr', rfl⟩)
      intro hmem
      exact not_mem_lookupIndex_removeFromIndex_self idx pid
        rec.serviceCard.name
        ((gcIdxFold_mem_iff now pid rec.serviceCard.name t _ hvac).mp hmem)
    · have hget' : mapGet t pid = some rec := by
        obtain ⟨p1, p2⟩ := pr
        simpa [mapGet, hk] using hget
      exact ih (gcIdxFold now idx pr) hnd' hget' hstale

/-- A GC pass over entries that do not mention `pid` leaves `pid`'s map
binding alone. -/
theorem gcRegFold_lookup_absent (now : Int) (pid : PeerID) :
    ∀ (l m : List (PeerID × RegistrationRecord)),
      pid ∉ l.map Prod.fst →
      mapGet (l.foldl (gcRegFold now) m) pid = mapGet m pid := by
  intro l
  induction l with
  | nil => intro m _; rfl
  | cons pr t ih =>
    intro m hnot
    have hk : pr.1 ≠ pid := by
      intro hh
      exact hnot (List.mem_map.mpr ⟨pr, List.mem_cons_self pr t, hh⟩)
    have ht : pid ∉ t.map Prod.fst := by
      intro hh
      rcases List.mem_map.mp hh with ⟨pr', hpr', he⟩
      exact hnot (List.mem_map.mpr ⟨pr', List.mem_cons_of_mem pr hpr', he⟩)
    rw [List.foldl_cons, ih _ ht]
    unfold gcRegFold
    split
    · exact mapGet_mapDel_ne m pr.1 pid (Ne.symm hk)
    · rfl

/-- The GC pass preserves key distinctness of the registrations map. -/
theorem keysNodup_gcRegFold (now : Int) :
    ∀ (l m : List (PeerID × RegistrationRecord)),
      keysNodup m → keysNodup (l.foldl (gcRegFold now) m) := by
  intro l
  induction l with
  | nil => intro m h; exact h
  | cons pr t ih =>
    intro m hm
    rw [List.foldl_cons]
    refine ih _ ?_
    unfold gcRegFold
    split
    · exact keysNodup_mapDel m pr.1 hm
    · exact hm

/-- Lookup after the GC pass: a binding survives iff its record is fresh in
the scanned list. -/
theorem gcRegFold_lookup (now : Int) (pid : PeerID) :
    ∀ (l m : List (PeerID × RegistrationRecord)),
      keysNodup l → keysNodup m →
      mapGet (l.foldl (gcRegFold now) m) pid =
        match mapGet l pid with
        | some rec => if now - rec.lastSeen > 90 then none else mapGet m pid
        | none => mapGet m pid := by
  intro l
  induction l with
  | nil => intro m _ _; rfl
  | cons pr t ih =>
    intro m hndl hndm
    have hkey : pr.1 ∉ t.map Prod.fst := (List.nodup_cons.mp hndl).1
    have hnd' : keysNodup t := (List.nodup_cons.mp hndl).2
    rw [List.foldl_cons]
    by_cases hk : pr.1 = pid
    · have hnt : pid ∉ t.map Prod.fst := hk ▸ hkey
      rw [gcRegFold_lookup_absent now pid t _ hnt]
      have hget : mapGet (pr :: t) pid = some pr.2 := by
        obtain ⟨p1, p2⟩ := pr
        simp only at hk
        subst hk
        simp [mapGet]
      rw [hget]
      by_cases hstale : now - pr.2.lastSeen > 90
      · simp only [hstale, if_true]
        unfold gcRegFold
        rw [if_pos hstale, hk]
        exact mapGet_mapDel_self m pid hndm
      · simp only [hstale, if_false]
        unfold gcRegFold
        rw [if_neg hstale]
    · have hmt : mapGet (pr :: t) pid = mapGet t pid := by
        obtain ⟨p1, p2⟩ := pr
        simp [mapGet, hk]
      have hndm' : keysNodup (gcRegFold now m pr) := by
        unfold gcRegFold
        split
        · exact keysNodup_mapDel m pr.1 hndm
        · exact hndm
      have hm' : mapGet (gcRegFold now m pr) pid = mapGet m pid := by
        unfold gcRegFold
        split
        · exact mapGet_mapDel_ne m pr.1 pid (Ne.symm hk)
        · rfl
      rw [ih _ hnd' hndm', hmt]
      cases mapGet t pid with
      | none => exact hm'
      | some rec =>
        by_cases hstale : now - rec.lastSeen > 90
        · simp [hstale]
        · simpa [hstale] using hm'

/-- C5: on an eviction tick, exactly the registrations whose `lastSeen` is
more than 90 seconds old are removed, from both the registrations map and
the inverted index; every record at most 90 seconds old survives with its
binding and index membership intact. Consequently a peer registering at
`t = 0` with no further traffic is gone at `t = 95`, and `find` with the
empty query then returns success with no providers. (The per-record
durable-store delete is mirrored outside this state, see `gcTickEvents`.) -/
theorem C5_eviction_exactly_stale (now : Int) (st : RegState)
    (hnd : keysNodup st.registrations) :
    (∀ pid, mapGet (gcTick now st).registrations pid =
      match mapGet st.registrations pid with
      | some rec => if now - rec.lastSeen > 90 then none else some rec
      | none => none)
    ∧ (∀ pid rec, mapGet st.registrations pid = some rec →
        now - rec.lastSeen > 90 →
        pid ∉ indexLookup (gcTick now st) rec.serviceCard.name)
    ∧ (∀ pid rec name, mapGet st.registrations pid = some rec →
        ¬(now - rec.lastSeen > 90) →
        (pid ∈ indexLookup (gcTick now st) name ↔ pid ∈ indexLookup st name))
    ∧ handleFind (gcTick 95 stateOne) "" =
        { success := true, providers := [], error := "" } := by
  have hreg : (gcTick now st).registrations =
      st.registrations.foldl (gcRegFold now) st.registrations := by
    rw [gcTick, foldl_gcStep_registrations]
  have hidx : (gcTick now st).serviceIndex =
      st.registrations.foldl (gcIdxFold now) st.serviceIndex := by
    rw [gcTick, foldl_gcStep_serviceIndex]
  refine ⟨?_, ?_, ?_, by decide⟩
  · intro pid
    rw [hreg, gcRegFold_lookup now pid st.registrations st.registrations
      hnd hnd]
    cases hget : mapGet st.registrations pid <;> simp [hget]
  · intro pid rec hget hstale hmem
    refine gcIdxFold_not_mem_of_stale now pid rec st.registrations
      st.serviceIndex hnd hget hstale ?_
    simpa [indexLookup, lookupIndex, hidx] using hmem
  · intro pid rec name hget hfresh
    have hvac : ∀ pr ∈ st.registrations, pr.1 = pid →
        ¬(now - pr.2.lastSeen > 90) := by
      intro pr hpr hpid
      have hv : pr.2 = rec := by
        refine mapGet_unique st.registrations pid pr.2 rec hnd hget ?_
        rw [← hpid]
        simpa using hpr
      rw [hv]
      exact hfresh
    have hiff := gcIdxFold_mem_iff now pid name st.registrations
      st.serviceIndex hvac
    simpa [indexLookup, lookupIndex, hidx] using hiff

/-- Witness for C5: `"P"` registered at `t = 0` is gone from the map after
the tick at `t = 95`, and `find` with the empty query reports no
providers. -/
theorem C5_eviction_exactly_stale_witness :
    handleFind (gcTick 95 stateOne) "" =
      { success := true, providers := [], error := "" }
    ∧ mapGet (gcTick 95 stateOne).registrations "P" = none := by
  refine ⟨(C5_eviction_exactly_stale 95 stateOne (by decide)).2.2.2, ?_⟩
  rw [(C5_eviction_exactly_stale 95 stateOne (by decide)).1 "P"]
  decide

/-! ## C7: the startup restore -/

/-- A lookup hit is an entry of the list. -/
theorem mem_of_mapGet {α : Type} (l : List (String × α)) (k : String)
    (v : α) (h : mapGet l k = some v) : (k, v) ∈ l := by
  induction l with
  | nil => simp [mapGet] at h
  | cons hd t ih =>
    obtain ⟨k₀, v₀⟩ := hd
    by_cases hk : k₀ = k
    · subst hk
      simp only [mapGet, if_pos rfl] at h
      cases h
      exact List.mem_cons_self _ _
    · simp only [mapGet, if_neg hk] at h
      exact List.mem_cons_of_mem _ (ih h)

/-- With pairwise-distinct keys, an entry of the list is its lookup. -/
theorem mapGet_of_mem {α : Type} (l : List (String × α)) (k : String)
    (v : α) (hnd : keysNodup l) (hmem : (k, v) ∈ l) :
    mapGet l k = some v := by
  induction l with
  | nil => cases hmem
  | cons hd t ih =>
    obtain ⟨k₀, v₀⟩ := hd
    have hkey : k₀ ∉ t.map Prod.fst := (List.nodup_cons.mp hnd).1
    have hnd' : keysNodup t := (List.nodup_cons.mp hnd).2
    rcases List.mem_cons.mp hmem with hmem | hmem
    · cases hmem
      simp [mapGet]
    · by_cases hk : k₀ = k
      · subst hk
        exact absurd (List.mem_map.mpr ⟨(k₀, v), hmem, rfl⟩) hkey
      · simp only [mapGet, if_neg hk]
        exact ih hnd' hmem

/-- The restore fold's effect on the registrations map is `restRegFold`. -/
theorem foldl_restoreStep_registrations
    (l : List (PeerID × RegistrationRecord)) :
    ∀ s : RegState, (l.foldl restoreStep s).registrations =
      l.foldl restRegFold s.registrations := by
  induction l with
  | nil => intro s; rfl
  | cons h t ih =>
    intro s
    rw [List.foldl_cons, List.foldl_cons, ih]
    rfl

/-- The restore fold's effect on the inverted index is `restIdxFold`. -/
theorem foldl_restoreStep_serviceIndex
    (l : List (PeerID × RegistrationRecord)) :
    ∀ s : RegState, (l.foldl restoreStep s).serviceIndex =
      l.foldl restIdxFold s.serviceIndex := by
  induction l with
  | nil => intro s; rfl
  | cons h t ih =>
    intro s
    rw [List.foldl_cons, List.foldl_cons, ih]
    rfl

/-- Installing entries for other peers leaves `pid`'s binding alone. -/
theorem restRegFold_lookup_absent (pid : PeerID) :
    ∀ (l m : List (PeerID × RegistrationRecord)),
      pid ∉ l.map Prod.fst →
      mapGet (l.foldl restRegFold m) pid = mapGet m pid := by
  intro l
  induction l with
  | nil => intro m _; rfl
  | cons pr t ih =>
    intro m hnot
    have hk : pr.1 ≠ pid := by
      intro hh
      exact hnot (List.mem_map.mpr ⟨pr, List.mem_cons_self pr t, hh⟩)
    have ht : pid ∉ t.map Prod.fst := by
      intro hh
      rcases List.mem_map.mp hh with ⟨pr', hpr', he⟩
      exact hnot (List.mem_map.mpr ⟨pr', List.mem_cons_of_mem pr hpr', he⟩)
    rw [List.foldl_cons, ih _ ht]
    exact mapGet_mapSet_ne m pr.1 pid pr.2 (Ne.symm hk)

/-- Lookup after installing a key-distinct entry list: an entry of the
list wins, otherwise the original binding shows through. -/
theorem restRegFold_lookup (pid : PeerID) :
    ∀ (l m : List (PeerID × RegistrationRecord)), keysNodup l →
      mapGet (l.foldl restRegFold m) pid =
        match mapGet l pid with
        | some rec => some rec
        | none => mapGet m pid := by
  intro l
  induction l with
  | nil => intro m _; rfl
  | cons pr t ih =>
    intro m hnd
    have hkey : pr.1 ∉ t.map Prod.fst := (List.nodup_cons.mp hnd).1
    have hnd' : keysNodup t := (List.nodup_cons.mp hnd).2
    rw [List.foldl_cons]
    by_cases hk : pr.1 = pid
    · have hnt : pid ∉ t.map Prod.fst := hk ▸ hkey
      rw [restRegFold_lookup_absent pid t _ hnt]
      have hget : mapGet (pr :: t) pid = some pr.2 := by
        obtain ⟨p1, p2⟩ := pr
        simp only at hk
        subst hk
        simp [mapGet]
      rw [hget]
      show mapGet (mapSet m pr.1 pr.2) pid = some pr.2
      rw [hk]
      exact mapGet_mapSet_self m pid pr.2
    · have hmt : mapGet (pr :: t) pid = mapGet t pid := by
        obtain ⟨p1, p2⟩ := pr
        simp [mapGet, hk]
      have hm' : mapGet (restRegFold m pr) pid = mapGet m pid :=
        mapGet_mapSet_ne m pr.1 pid pr.2 (Ne.symm hk)
      rw [ih _ hnd', hmt]
      cases mapGet t pid with
      | none => exact hm'
      | some rec => rfl

/-- `addToIndex` puts the peer in the name's list. -/
theorem mem_lookupIndex_addToIndex_self (idx : List (String × List PeerID))
    (pid : PeerID) (name : String) :
    pid ∈ lookupIndex (addToIndex idx pid name) name := by
  unfold addToIndex lookupIndex
  by_cases h : pid ∈ (mapGet idx name).getD []
  · rw [if_pos h]
    exact h
  · rw [if_neg h, mapGet_mapSet_self]
    simp

/-- `addToIndex` never removes anyone from any name's list. -/
theorem mem_lookupIndex_addToIndex_mono (idx : List (String × List PeerID))
    (q pid : PeerID) (name' name : String)
    (h : pid ∈ lookupIndex idx name) :
    pid ∈ lookupIndex (addToIndex idx q name') name := by
  unfold addToIndex lookupIndex at *
  by_cases hq : q ∈ (mapGet idx name').getD []
  · rw [if_pos hq]
    exact h
  · rw [if_neg hq]
    by_cases hn : name' = name
    · subst hn
      rw [mapGet_mapSet_self]
      simpa using Or.inl h
    · rw [mapGet_mapSet_ne idx name' name _ (fun hh => hn hh.symm)]
      exact h

/-- The restore fold never removes anyone from any name's list. -/
theorem restIdxFold_mem_mono (pid : PeerID) (name : String) :
    ∀ (l : List (PeerID × RegistrationRecord))
      (idx : List (String × List PeerID)),
      pid ∈ lookupIndex idx name →
      pid ∈ lookupIndex (l.foldl restIdxFold idx) name := by
  intro l
  induction l with
  | nil => intro idx h; exact h
  | cons pr t ih =>
    intro idx h
    rw [List.foldl_cons]
    exact ih _ (mem_lookupIndex_addToIndex_mono idx pr.1 pid
      pr.2.serviceCard.name name h)

/-- Every restored entry ends up in the index under its record's name. -/
theorem restIdxFold_mem (pid : PeerID) (rec : RegistrationRecord) :
    ∀ (l : List (PeerID × RegistrationRecord))
      (idx : List (String × List PeerID)),
      (pid, rec) ∈ l →
      pid ∈ lookupIndex (l.foldl restIdxFold idx) rec.serviceCard.name := by
  intro l
  induction l with
  | nil => intro idx h; cases h
  | cons pr t ih =>
    intro idx hmem
    rw [List.foldl_cons]
    rcases List.mem_cons.mp hmem with hmem | hmem
    · cases hmem
      exact restIdxFold_mem_mono pid rec.serviceCard.name t _
        (mem_lookupIndex_addToIndex_self idx pid rec.serviceCard.name)
    · exact ih _ hmem

/-- C7: the startup restore reads every stored registration record, skips
exactly those whose `lastSeen` is more than 90 seconds before now, and
installs each survivor into the registrations map under its peer identity
and into the inverted index under its record's service-card name; no stale
record appears in the restored state. -/
theorem C7_restore_skips_stale (now : Int)
    (store : List (PeerID × RegistrationRecord)) (hnd : keysNodup store) :
    (∀ pid rec, (pid, rec) ∈ store →
      (now - rec.lastSeen > 90 →
        mapGet (restoreStateFromRedis now store).registrations pid = none)
      ∧ (¬(now - rec.lastSeen > 90) →
          mapGet (restoreStateFromRedis now store).registrations pid =
            some rec
          ∧ pid ∈ indexLookup (restoreStateFromRedis now store)
              rec.serviceCard.name))
    ∧ (∀ pid rec,
        mapGet (restoreStateFromRedis now store).registrations pid =
          some rec →
        (pid, rec) ∈ store ∧ ¬(now - rec.lastSeen > 90)) := by
  have hreg : (restoreStateFromRedis now store).registrations =
      (restoreAllRegistrations now store).foldl restRegFold [] := by
    rw [restoreStateFromRedis, foldl_restoreStep_registrations]
    rfl
  have hidx : (restoreStateFromRedis now store).serviceIndex =
      (restoreAllRegistrations now store).foldl restIdxFold [] := by
    rw [restoreStateFromRedis, foldl_restoreStep_serviceIndex]
    rfl
  have hndf : keysNodup (restoreAllRegistrations now store) := by
    unfold restoreAllRegistrations
    exact List.Nodup.sublist
      ((List.filter_sublist store).map Prod.fst) hnd
  constructor
  · intro pid rec hmem
    constructor
    · intro hstale
      have habsent : pid ∉ (restoreAllRegistrations now store).map
          Prod.fst := by
        intro hin
        rcases List.mem_map.mp hin with ⟨pr, hprf, hpr1⟩
        have hst := (List.mem_filter.mp hprf).1
        have hflt := (List.mem_filter.mp hprf).2
        have hrec : pr.2 = rec := by
          refine mapGet_unique store pid pr.2 rec hnd
            (mapGet_of_mem store pid rec hnd hmem) ?_
          rw [← hpr1]
          simpa using hst
        rw [hrec] at hflt
        simp only [Bool.not_eq_true', decide_eq_false_iff_not] at hflt
        exact hflt hstale
      rw [hreg, restRegFold_lookup pid _ [] hndf,
        mapGet_eq_none _ pid habsent]
      rfl
    · intro hfresh
      have hmemf : (pid, rec) ∈ restoreAllRegistrations now store := by
        refine List.mem_filter.mpr ⟨hmem, ?_⟩
        simpa using hfresh
      constructor
      · rw [hreg, restRegFold_lookup pid _ [] hndf,
          mapGet_of_mem _ pid rec hndf hmemf]
      · have := restIdxFold_mem pid rec (restoreAllRegistrations now store)
          [] hmemf
        simpa [indexLookup, lookupIndex, hidx] using this
  · intro pid rec hget
    rw [hreg, restRegFold_lookup pid _ [] hndf] at hget
    cases hf : mapGet (restoreAllRegistrations now store) pid with
    | none =>
      rw [hf] at hget
      simp [mapGet] at hget
    | some rec' =>
      rw [hf] at hget
      cases hget
      have hmemf := mem_of_mapGet _ pid rec hf
      have hst := (List.mem_filter.mp hmemf).1
      have hflt := (List.mem_filter.mp hmemf).2
      simp only [Bool.not_eq_true', decide_eq_false_iff_not] at hflt
      exact ⟨hst, hflt⟩

/-- Witness for C7, mirroring scenario S6: at `now = 200`, a store holding
a record seen 30 s ago and one seen 120 s ago restores only the former,
into both the map and the index. -/
theorem C7_restore_skips_stale_witness :
    mapGet (restoreStateFromRedis 200
        [("F", ⟨170, demoCard "x", none, demoAddr⟩),
         ("S", ⟨80, demoCard "y", none, demoAddr⟩)]).registrations "F" =
      some ⟨170, demoCard "x", none, demoAddr⟩
    ∧ "F" ∈ indexLookup (restoreStateFromRedis 200
        [("F", ⟨170, demoCard "x", none, demoAddr⟩),
         ("S", ⟨80, demoCard "y", none, demoAddr⟩)]) "x"
    ∧ mapGet (restoreStateFromRedis 200
        [("F", ⟨170, demoCard "x", none, demoAddr⟩),
         ("S", ⟨80, demoCard "y", none, demoAddr⟩)]).registrations "S" =
      none := by
  have h := C7_restore_skips_stale 200
    [("F", ⟨170, demoCard "x", none, demoAddr⟩),
     ("S", ⟨80, demoCard "y", none, demoAddr⟩)] (by decide)
  have hF := (h.1 "F" ⟨170, demoCard "x", none, demoAddr⟩ (by decide)).2
    (by decide)
  have hS := (h.1 "S" ⟨80, demoCard "y", none, demoAddr⟩ (by decide)).1
    (by decide)
  exact ⟨hF.1, hF.2, hS⟩

/-! ## C8: the bag-of-code-points embedding -/

theorem getD_cons_succ (x : Nat) (t : List Nat) (i : Nat) :
    ((x :: t).getD (i + 1) 0) = t.getD i 0 := by
  simp [List.getD]

theorem getD_set_self (l : List Nat) (i : Nat) (a : Nat)
    (h : i < l.length) : (l.set i a).getD i 0 = a := by
  induction l generalizing i with
  | nil => simp at h
  | cons x t ih =>
    cases i with
    | zero => rfl
    | succ i =>
      rw [List.set_cons_succ, getD_cons_succ]
      exact ih i (by simpa using h)

theorem getD_set_ne (l : List Nat) (i j : Nat) (a : Nat) (h : i ≠ j) :
    (l.set i a).getD j 0 = l.getD j 0 := by
  induction l generalizing i j with
  | nil => simp
  | cons x t ih =>
    cases i with
    | zero =>
      cases j with
      | zero => exact absurd rfl h
      | succ j => rw [List.set_cons_zero, getD_cons_succ, getD_cons_succ]
    | succ i =>
      cases j with
      | zero => rfl
      | succ j =>
        rw [List.set_cons_succ, getD_cons_succ, getD_cons_succ]
        exact ih i j (fun hh => h (by rw [hh]))

theorem getD_replicate_zero (d i : Nat) :
    (List.replicate d (0 : Nat)).getD i 0 = 0 := by
  induction d generalizing i with
  | zero => simp [List.getD]
  | succ d ih =>
    cases i with
    | zero => rfl
    | succ i =>
      rw [List.replicate_succ, getD_cons_succ]
      exact ih i

theorem embedStep_length (d : Nat) (vec : List Nat) (c : Char) :
    (embedStep d vec c).length = vec.length := by
  unfold embedStep
  exact List.length_set vec _ _

/-- Each character increments exactly its residue-class component: folding
`embedStep` counts, per component `i < d`, the code points with
`c % d = i`. -/
theorem embed_fold_count (d : Nat) (i : Nat) (hi : i < d) :
    ∀ (cs : List Char) (vec : List Nat), vec.length = d →
      (cs.foldl (embedStep d) vec).getD i 0 =
        vec.getD i 0 + (cs.filter (fun c => c.toNat % d == i)).length := by
  intro cs
  induction cs with
  | nil => intro vec _; simp
  | cons c t ih =>
    intro vec hlen
    rw [List.foldl_cons]
    have hlen' : (embedStep d vec c).length = d := by
      rw [embedStep_length, hlen]
    rw [ih _ hlen']
    by_cases hc : c.toNat % d = i
    · have hstep : (embedStep d vec c).getD i 0 = vec.getD i 0 + 1 := by
        unfold embedStep
        rw [hc]
        exact getD_set_self vec i _ (hlen ▸ hi)
      rw [hstep]
      simp [List.filter_cons, hc]
      omega
    · have hstep : (embedStep d vec c).getD i 0 = vec.getD i 0 := by
        unfold embedStep
        exact getD_set_ne vec _ i _ hc
      rw [hstep]
      simp [List.filter_cons, hc]

theorem embed_fold_length (d : Nat) :
    ∀ (cs : List Char) (vec : List Nat),
      (cs.foldl (embedStep d) vec).length = vec.length := by
  intro cs
  induction cs with
  | nil => intro vec; rfl
  | cons c t ih =>
    intro vec
    rw [List.foldl_cons, ih, embedStep_length]

/-- C8: the embedding is the 64-dimensional bag of code points of the
lowercased input — component `i` counts the code points `c` with
`c % 64 = i` — the registration path embeds the card text (name,
description, space-joined tags) and the semantic-search query path embeds
the lowercased query with the same function, so equal inputs give
identical vectors across the two paths, and the function is deterministic
by construction. -/
theorem C8_embedding_bag_of_codepoints (card : ServiceCard) (q : String)
    (i : Nat) (hi : i < 64) :
    (buildServiceEmbedding card).length = 64
    ∧ (embedQueryVector q).length = 64
    ∧ (embedQueryVector q).getD i 0 =
        ((strToLower q).data.filter (fun c => c.toNat % 64 == i)).length
    ∧ (buildServiceEmbedding card).getD i 0 =
        ((strToLower (cardText card)).data.filter
          (fun c => c.toNat % 64 == i)).length
    ∧ buildServiceEmbedding card = embedQueryVector (cardText card) := by
  have hlen : ∀ s : String, (simpleTextEmbedding s 64).length = 64 := by
    intro s
    unfold simpleTextEmbedding
    simp only [defaultEmbeddingDim]
    rw [if_neg (by omega)]
    rw [embed_fold_length, List.length_replicate]
  have hcount : ∀ s : String, (simpleTextEmbedding s 64).getD i 0 =
      (s.data.filter (fun c => c.toNat % 64 == i)).length := by
    intro s
    unfold simpleTextEmbedding
    simp only [defaultEmbeddingDim]
    rw [if_neg (by omega)]
    rw [embed_fold_count 64 i hi s.data (List.replicate 64 0)
      (List.length_replicate 64 0), getD_replicate_zero]
    omega
  exact ⟨hlen _, hlen _, hcount _, hcount _, rfl⟩

/-- Witness for C8 at component 33 (`'a' % 64 = 33`): the card named
`"aa"` with empty description and no tags embeds to 2 at component 33, as
does the query `"AA "`…—the shared path on equal lowercased text. -/
theorem C8_embedding_bag_of_codepoints_witness :
    (buildServiceEmbedding
      { name := "aa", description := "", inputs := [], costPerOp := 1,
        version := "", tags := [], embedding := [] }).getD 33 0 = 2
    ∧ (embedQueryVector "aa ").getD 33 0 = 2 := by
  have h1 := (C8_embedding_bag_of_codepoints
    { name := "aa", description := "", inputs := [], costPerOp := 1,
      version := "", tags := [], embedding := [] } "aa " 33 (by omega)).2.2.2.1
  have h2 := (C8_embedding_bag_of_codepoints
    { name := "aa", description := "", inputs := [], costPerOp := 1,
      version := "", tags := [], embedding := [] } "aa " 33 (by omega)).2.2.1
  rw [h1, h2]
  decide

/-! ## C10: external calls and the state mutex -/

/-- Counterexample to C10: on the heartbeat path, the successful
new-registration path, and a pruning GC tick, the durable-store call runs
at mutex depth 1 — not outside the mutex (`SaveRegistration` at
main.go:360 and main.go:407 and `DeleteRegistration` at main.go:189 all
sit between `r.mu.Lock()` and `r.mu.Unlock()`). -/
theorem C10_store_calls_outside_mutex_counterexample :
    ((callDepths 0 heartbeatEvents).all (fun p => p.2 == 0)) = false
    ∧ ((callDepths 0 (newRegistrationEvents true true)).all
        (fun p => p.2 == 0)) = false
    ∧ ((callDepths 0 (gcTickEvents 1)).all (fun p => p.2 == 0)) = false := by
  decide

theorem callDepths_replicate_delete (n : Nat) :
    callDepths 1
      (List.replicate n RegEvent.storeDelete ++ [RegEvent.unlockState]) =
      List.replicate n (RegEvent.storeDelete, 1) := by
  induction n with
  | zero => rfl
  | succ n ih =>
    rw [List.replicate_succ, List.cons_append,
      show callDepths 1 (RegEvent.storeDelete ::
        (List.replicate n RegEvent.storeDelete ++ [RegEvent.unlockState])) =
        (RegEvent.storeDelete, 1) :: callDepths 1
          (List.replicate n RegEvent.storeDelete ++ [RegEvent.unlockState])
        from rfl,
      ih, List.replicate_succ]

/-- C10 as the code has it: every durable-store call of the heartbeat,
new-registration and eviction paths runs while the state mutex is held
(depth 1); only the vector-index upsert of the new-registration path runs
outside it (depth 0). -/
theorem C10_store_calls_under_mutex :
    ((callDepths 0 heartbeatEvents).all
      (fun p => p.1 == RegEvent.storeSave && p.2 == 1)) = true
    ∧ (∀ hasProviderInfo hasQdrant : Bool,
        ((callDepths 0 (newRegistrationEvents hasProviderInfo hasQdrant)).all
          (fun p => if p.1 == RegEvent.vectorUpsert then p.2 == 0
                    else p.2 == 1)) = true)
    ∧ (∀ n : Nat,
        ((callDepths 0 (gcTickEvents n)).all
          (fun p => p.1 == RegEvent.storeDelete && p.2 == 1)) = true) := by
  refine ⟨by decide, ?_, ?_⟩
  · intro hp hq
    cases hp <;> cases hq <;> decide
  · intro n
    have h : callDepths 0 (gcTickEvents n) =
        List.replicate n (RegEvent.storeDelete, 1) := by
      calc callDepths 0 (gcTickEvents n)
          = callDepths 1 (List.replicate n RegEvent.storeDelete ++
              [RegEvent.unlockState]) := rfl
        _ = List.replicate n (RegEvent.storeDelete, 1) :=
            callDepths_replicate_delete n
    rw [h]
    simp [List.all_eq_true, List.mem_replicate]

/-! ## C1: invariants A and B over operation sequences -/

/-- C1 fails on the code: starting from the empty state, peer `"P"`
registers service `"a"` (accepted), then sends an accepted new
registration with a fresh stake, service name `"b"`, and no provider info.
The handler removes `"P"` from the index entry of `"a"` (main.go:391-393)
but, because the install is gated on `provider_info` (main.go:395), the
old record stays: `"P"` is registered under `"a"` yet absent from the
inverted index — Invariant A is false after the second accepted operation
(Invariant B still holds, as it did after the first). -/
theorem C1_invariantA_broken_by_rename_without_provider :
    (handleRegister okEnv 0 "P" regReqA emptyState).2.success = true
    ∧ (handleRegister okEnv 1 "P" regReqB stateOne).2.success = true
    ∧ mapGet stateTwo.registrations "P" =
        some ⟨0, demoCard "a", some (demoProof "t1" 1), demoAddr⟩
    ∧ indexLookup stateTwo "a" = []
    ∧ invariantA stateOne = true
    ∧ invariantB stateOne = true
    ∧ invariantA stateTwo = false
    ∧ invariantB stateTwo = true := by
  decide

/-! ## C6: `find` against the specification's provider set -/

/-- The `find` fold is the flattened per-entry contribution. -/
theorem handleFind_providers (st : RegState) (query : String) :
    (handleFind st query).providers =
      (st.serviceIndex.map
        (findEntryProviders st (strToLower query))).flatten := by
  simp only [handleFind]
  suffices h : ∀ (l : List (String × List PeerID)) (acc : List AddrInfo),
      l.foldl (fun acc entry =>
        if nameMatches entry.1 (strToLower query) then
          acc ++ entry.2.filterMap (fun pid =>
            (mapGet st.registrations pid).map (fun reg => reg.addrInfo))
        else acc) acc =
      acc ++ (l.map (findEntryProviders st (strToLower query))).flatten by
    simpa using h st.serviceIndex []
  intro l
  induction l with
  | nil => intro acc; simp
  | cons e t ih =>
    intro acc
    rw [List.foldl_cons]
    by_cases hm : nameMatches e.1 (strToLower query) = true
    · rw [if_pos hm, ih]
      simp [findEntryProviders, hm]
    · rw [if_neg hm, ih]
      simp [findEntryProviders, hm]

/-- Per entry, the providers are the lookups of the matched peers. -/
theorem findEntryProviders_eq (st : RegState) (q : String)
    (entry : String × List PeerID) :
    findEntryProviders st q entry =
      (matchedEntryPids q entry).filterMap
        (fun pid =>
          (mapGet st.registrations pid).map (fun reg => reg.addrInfo)) := by
  unfold findEntryProviders matchedEntryPids
  split <;> rfl

/-- `filterMap` distributes over flattening a mapped list. -/
theorem flatten_map_filterMap {α β γ : Type} (f : β → Option γ)
    (g : α → List β) :
    ∀ l : List α, (l.map (fun a => (g a).filterMap f)).flatten =
      ((l.map g).flatten).filterMap f := by
  intro l
  induction l with
  | nil => rfl
  | cons a t ih => simp [List.filterMap_append, ih]

/-- Invariant B, unpacked: every indexed peer has a live record named as
its index entry. -/
theorem invariantB_spec (st : RegState) (hB : invariantB st = true) :
    ∀ entry ∈ st.serviceIndex, ∀ pid ∈ entry.2,
      ∃ rec, mapGet st.registrations pid = some rec ∧
        rec.serviceCard.name = entry.1 := by
  intro entry he pid hp
  have h1 := List.all_eq_true.mp hB entry he
  have h2 := List.all_eq_true.mp h1 pid hp
  cases hg : mapGet st.registrations pid with
  | none =>
    rw [hg] at h2
    simp at h2
  | some rec =>
    rw [hg] at h2
    exact ⟨rec, rfl, by simpa using h2⟩

/-- Invariant A, unpacked: every registered peer counts once in its
name's index list. -/
theorem invariantA_spec (st : RegState) (hA : invariantA st = true) :
    ∀ pr ∈ st.registrations,
      (indexLookup st pr.2.serviceCard.name).count pr.1 = 1 := by
  intro pr hpr
  have h1 := List.all_eq_true.mp hA pr hpr
  simpa using h1

/-- Under the invariants, the matched peers are exactly the registered
peers whose record's name matches. -/
theorem mem_matchedPids (st : RegState) (q : String) (pid : PeerID)
    (hA : invariantA st = true) (hB : invariantB st = true) :
    pid ∈ matchedPids st q ↔
      ∃ rec, mapGet st.registrations pid = some rec ∧
        nameMatches rec.serviceCard.name q = true := by
  unfold matchedPids
  rw [List.mem_flatten]
  constructor
  · rintro ⟨l', hl', hpid⟩
    rcases List.mem_map.mp hl' with ⟨entry, hentry, he⟩
    subst he
    unfold matchedEntryPids at hpid
    by_cases hm : nameMatches entry.1 q = true
    · rw [if_pos hm] at hpid
      rcases invariantB_spec st hB entry hentry pid hpid with
        ⟨rec, hget, hname⟩
      exact ⟨rec, hget, hname ▸ hm⟩
    · rw [if_neg hm] at hpid
      cases hpid
  · rintro ⟨rec, hget, hm⟩
    have hcount : (indexLookup st rec.serviceCard.name).count pid = 1 :=
      invariantA_spec st hA (pid, rec)
        (mem_of_mapGet st.registrations pid rec hget)
    have hmem : pid ∈ indexLookup st rec.serviceCard.name := by
      have : 0 < (indexLookup st rec.serviceCard.name).count pid := by
        omega
      exact List.count_pos_iff.mp this
    unfold indexLookup at hmem
    cases hidx : mapGet st.serviceIndex rec.serviceCard.name with
    | none =>
      rw [hidx] at hmem
      cases hmem
    | some pids =>
      rw [hidx] at hmem
      refine ⟨pids, List.mem_map.mpr
        ⟨(rec.serviceCard.name, pids),
          mem_of_mapGet st.serviceIndex rec.serviceCard.name pids hidx,
          ?_⟩, ?_⟩
      · unfold matchedEntryPids
        simp [hm]
      · simpa using hmem

/-- Under the invariants the matched-peer list has no duplicates: each
peer occurs once in its own name's entry and index keys are distinct. -/
theorem nodup_matchedPids (st : RegState) (q : String)
    (hndi : keysNodup st.serviceIndex)
    (hA : invariantA st = true) (hB : invariantB st = true) :
    (matchedPids st q).Nodup := by
  unfold matchedPids
  rw [List.nodup_flatten]
  constructor
  · intro l' hl'
    rcases List.mem_map.mp hl' with ⟨entry, hentry, he⟩
    subst he
    unfold matchedEntryPids
    by_cases hm : nameMatches entry.1 q = true
    · rw [if_pos hm, List.nodup_iff_count_eq_one]
      intro pid hpid
      rcases invariantB_spec st hB entry hentry pid hpid with
        ⟨rec, hget, hname⟩
      have hcount : (indexLookup st rec.serviceCard.name).count pid = 1 :=
        invariantA_spec st hA (pid, rec)
          (mem_of_mapGet st.registrations pid rec hget)
      have hidx : mapGet st.serviceIndex entry.1 = some entry.2 :=
        mapGet_of_mem st.serviceIndex entry.1 entry.2 hndi
          (by simpa using hentry)
      have hlook : indexLookup st rec.serviceCard.name = entry.2 := by
        unfold indexLookup
        rw [hname, hidx]
        rfl
      rw [hlook] at hcount
      exact hcount
    · rw [if_neg hm]
      exact List.nodup_nil
  · rw [List.pairwise_map]
    have hndi' : (st.serviceIndex.map Prod.fst).Nodup := hndi
    have hpw : st.serviceIndex.Pairwise (fun e1 e2 => e1.1 ≠ e2.1) :=
      List.pairwise_map.mp hndi'
    refine hpw.imp_of_mem ?_
    intro e1 e2 h1 h2 hne pid hp1 hp2
    unfold matchedEntryPids at hp1 hp2
    by_cases hm1 : nameMatches e1.1 q = true
    · by_cases hm2 : nameMatches e2.1 q = true
      · rw [if_pos hm1] at hp1
        rw [if_pos hm2] at hp2
        rcases invariantB_spec st hB e1 h1 pid hp1 with ⟨r1, hg1, hn1⟩
        rcases invariantB_spec st hB e2 h2 pid hp2 with ⟨r2, hg2, hn2⟩
        have : r1 = r2 := by
          rw [hg1] at hg2
          exact Option.some.inj hg2
        exact hne (hn1 ▸ hn2 ▸ this ▸ rfl)
      · rw [if_neg hm2] at hp2
        cases hp2
    · rw [if_neg hm1] at hp1
      cases hp1

/-- The spec-side matching peers: registered records with matching name. -/
theorem mem_filterRegs (st : RegState) (q : String) (pid : PeerID)
    (hndr : keysNodup st.registrations) :
    pid ∈ (st.registrations.filter
        (fun pr => nameMatches pr.2.serviceCard.name q)).map Prod.fst ↔
      ∃ rec, mapGet st.registrations pid = some rec ∧
        nameMatches rec.serviceCard.name q = true := by
  constructor
  · intro h
    rcases List.mem_map.mp h with ⟨pr, hprf, hfst⟩
    have hmem := List.mem_of_mem_filter hprf
    have hmatch := List.of_mem_filter hprf
    refine ⟨pr.2, ?_, hmatch⟩
    rw [← hfst]
    exact mapGet_of_mem st.registrations pr.1 pr.2 hndr hmem
  · rintro ⟨rec, hget, hm⟩
    exact List.mem_map.mpr ⟨(pid, rec),
      List.mem_filter.mpr ⟨mem_of_mapGet st.registrations pid rec hget, hm⟩,
      rfl⟩

/-- Resolving each matched registration's address through the map is just
projecting it, when the entries come from the key-distinct map itself. -/
theorem filterMap_lookup_map (st : RegState)
    (hndr : keysNodup st.registrations) :
    ∀ l : List (PeerID × RegistrationRecord),
      (∀ pr ∈ l, pr ∈ st.registrations) →
      (l.map Prod.fst).filterMap
        (fun pid => (mapGet st.registrations pid).map
          (fun reg => reg.addrInfo)) =
      l.map (fun pr => pr.2.addrInfo) := by
  intro l
  induction l with
  | nil => intro _; rfl
  | cons pr t ih =>
    intro hsub
    have hget : mapGet st.registrations pr.1 = some pr.2 :=
      mapGet_of_mem st.registrations pr.1 pr.2 hndr
        (by simpa using hsub pr (List.mem_cons_self pr t))
    have ht := ih (fun pr' h => hsub pr' (List.mem_cons_of_mem pr h))
    simp [List.filterMap_cons, hget, ht]

/-- C6, amended: for every registry state satisfying Invariants A and B
(with key-distinct maps) and every query, `find` succeeds and returns
exactly — as a multiset — the `addrInfo` of the registered records whose
service name, lowercased, contains the lowercased query; the empty query
matches everything and there is no error case. -/
theorem C6_find_matches_spec (st : RegState) (q : String)
    (hndr : keysNodup st.registrations) (hndi : keysNodup st.serviceIndex)
    (hA : invariantA st = true) (hB : invariantB st = true) :
    (handleFind st q).success = true
    ∧ (handleFind st q).error = ""
    ∧ (handleFind st q).providers.Perm (specProviders st q) := by
  refine ⟨rfl, rfl, ?_⟩
  have hperm : (matchedPids st (strToLower q)).Perm
      ((st.registrations.filter
        (fun pr => nameMatches pr.2.serviceCard.name (strToLower q))).map
        Prod.fst) := by
    rw [List.perm_ext_iff_of_nodup
      (nodup_matchedPids st (strToLower q) hndi hA hB)
      (List.Nodup.sublist
        ((List.filter_sublist st.registrations).map Prod.fst) hndr)]
    intro pid
    rw [mem_matchedPids st (strToLower q) pid hA hB,
      mem_filterRegs st (strToLower q) pid hndr]
  have hfun : findEntryProviders st (strToLower q) =
      fun e => (matchedEntryPids (strToLower q) e).filterMap
        (fun pid => (mapGet st.registrations pid).map
          (fun reg => reg.addrInfo)) :=
    funext (findEntryProviders_eq st (strToLower q))
  have h1 : (handleFind st q).providers =
      (matchedPids st (strToLower q)).filterMap
        (fun pid => (mapGet st.registrations pid).map
          (fun reg => reg.addrInfo)) := by
    rw [handleFind_providers, hfun,
      flatten_map_filterMap
        (fun pid => (mapGet st.registrations pid).map
          (fun reg => reg.addrInfo))
        (matchedEntryPids (strToLower q)) st.serviceIndex]
    rfl
  have h2 := hperm.filterMap
    (fun pid => (mapGet st.registrations pid).map (fun reg => reg.addrInfo))
  rw [filterMap_lookup_map st hndr _
    (fun pr h => List.mem_of_mem_filter h)] at h2
  rw [h1]
  exact h2

/-- Witness for the amended C6: in `stateOne` (one registration of
service `"a"`, invariants holding), `find "a"` answers success with
exactly the registered provider address. -/
theorem C6_find_matches_spec_witness :
    (handleFind stateOne "a").success = true
    ∧ (handleFind stateOne "a").providers.Perm (specProviders stateOne "a")
    := by
  have h := C6_find_matches_spec stateOne "a" (by decide) (by decide)
    (by decide) (by decide)
  exact ⟨h.1, h.2.2⟩

/-- Counterexample to C6 as stated: in the reachable state `stateTwo`
(see C1), `"P"` is registered under service `"a"` but absent from the
index, so `find "a"` returns no providers while the specification's
collection contains `"P"`'s address. -/
theorem C6_find_matches_spec_counterexample :
    (handleFind stateTwo "a").providers = []
    ∧ specProviders stateTwo "a" = [demoAddr]
    ∧ ¬ (handleFind stateTwo "a").providers.Perm
        (specProviders stateTwo "a") := by
  refine ⟨by decide, by decide, ?_⟩
  intro hperm
  have hlen := hperm.length_eq
  rw [show (handleFind stateTwo "a").providers = [] from by decide,
    show specProviders stateTwo "a" = [demoAddr] from by decide] at hlen
  simp at hlen
